import Mathlib

/-!
Verification development for the Splitzee expense-sharing client.

The embedding models the three pieces of logic the specification singles
out:

* the balance engine `calculateBalances` (Groups page, `calculateBalances`
  in the source): folds a group's expenses and their splits into a signed
  net balance per member;
* the group-expense submission handler `handleSubmit`
  (`AddGroupExpenseModal.tsx`): split-sum validation followed by a
  two-step, non-transactional write of the expense row and its split rows;
* the settlement deep-link builder `generateGooglePayUrl`
  (`utils/googlePay.ts`): formats a `upi://pay?...` URI via
  `URLSearchParams` serialization.

Currency amounts, which the source manipulates as JavaScript numbers
holding decimal currency values, are modelled as exact rationals (`ℚ`);
strings are modelled as `String` or, where character-level reasoning is
needed (URL encoding), as `List Char`.
-/

set_option maxRecDepth 8000

namespace Splitzee

/-- A member of a group, as produced by the `group_members` +
`user_profiles` join in the source: stable user id, optional display
name, email. -/
structure Member where
  user_id : String
  full_name : Option String
  email : String
deriving DecidableEq, Repr

/-- One row of `expense_splits` attached to a group expense: the sharing
member's id and the amount they owe for this expense. -/
structure ExpenseSplit where
  user_id : String
  amount : ℚ
deriving DecidableEq, Repr

/-- One `group_expenses` row together with its splits, as fetched by
`calculateBalances`: the payer's id, the total amount, and the split
rows. -/
structure GroupExpense where
  paid_by : String
  amount : ℚ
  expense_splits : List ExpenseSplit
deriving DecidableEq, Repr

/-- One output entry of the balance engine (the `Balance` interface in the
source): member id, display name, email, signed net balance. -/
structure Balance where
  user_id : String
  user_name : String
  user_email : String
  balance : ℚ
deriving DecidableEq, Repr

/-- The in-progress `balanceMap` of `calculateBalances`. The source uses a
`Map<string, number>` read through `balanceMap.get(id) || 0`; a total
function defaulting to `0` has exactly those read semantics. -/
abbrev BalanceMap := String → ℚ

/-- One iteration of the inner `expense.expense_splits.forEach` loop:
`balanceMap.set(userId, (balanceMap.get(userId) || 0) - splitAmount)`. -/
def applySplit (m : BalanceMap) (s : ExpenseSplit) : BalanceMap :=
  fun u => if u = s.user_id then m u - s.amount else m u

/-- One iteration of the outer `expenses.forEach` loop: credit the payer
with the full amount, then debit every split member by their share. -/
def applyExpense (m : BalanceMap) (e : GroupExpense) : BalanceMap :=
  e.expense_splits.foldl applySplit
    (fun u => if u = e.paid_by then m u + e.amount else m u)

/-- The `m.user_profiles.full_name || 'Unknown'` display-name fallback
(JavaScript `||` also treats the empty string as falsy). -/
def displayName (full_name : Option String) : String :=
  match full_name with
  | none => "Unknown"
  | some s => if s = "" then "Unknown" else s

/-- The balance engine (`calculateBalances` in the source): fold every
expense into the balance map, then emit one `Balance` per group member in
member-list order, reading absent ids as `0`. -/
def calculateBalances (expenses : List GroupExpense) (members : List Member) :
    List Balance :=
  let balanceMap : BalanceMap := expenses.foldl applyExpense (fun _ => 0)
  members.map (fun m =>
    { user_id := m.user_id
      user_name := displayName m.full_name
      user_email := m.email
      balance := balanceMap m.user_id })

/-- Spec-side characterization of a member's balance, written from the
spec's algorithm (§4.1): the total the member fronted as payer minus the
total owed across all splits naming the member. -/
def paidTotal (expenses : List GroupExpense) (u : String) : ℚ :=
  ((expenses.filter (fun e => e.paid_by = u)).map (fun e => e.amount)).sum

/-- Spec-side total owed by member `u`: over all expenses, the sum of the
amounts of the splits whose member id is `u`. -/
def owedTotal (expenses : List GroupExpense) (u : String) : ℚ :=
  (expenses.map (fun e =>
    ((e.expense_splits.filter (fun s => s.user_id = u)).map
      (fun s => s.amount)).sum)).sum

/-- Spec-side balance of member `u`: payer credit minus split debits. -/
def specBalance (expenses : List GroupExpense) (u : String) : ℚ :=
  paidTotal expenses u - owedTotal expenses u

/-- The sum of all split amounts attached to one expense. -/
def splitsTotal (e : GroupExpense) : ℚ :=
  (e.expense_splits.map (fun s => s.amount)).sum

/-- Fixture: member with id `A` and no display name. -/
def memA : Member := { user_id := "A", full_name := none, email := "a" }

/-- Fixture: member with id `B`. -/
def memB : Member := { user_id := "B", full_name := some "Bee", email := "b" }

/-- Fixture: an expense paid by `A` whose single split (also `A`) sums to
`0.99` against a total of `1`, i.e. is off by exactly the `0.01`
entry-time tolerance. -/
def exOff : GroupExpense :=
  { paid_by := "A", amount := 1,
    expense_splits := [{ user_id := "A", amount := 99/100 }] }

/-- Fixture: an expense paid by `A` whose splits reconcile exactly. -/
def exGood : GroupExpense :=
  { paid_by := "A", amount := 1,
    expense_splits := [{ user_id := "A", amount := 1 }] }

/-- Fixture: an expense whose payer `B` is not in the member list, while
its splits (charged to `A`) reconcile exactly with the total. -/
def exGhost : GroupExpense :=
  { paid_by := "B", amount := 1,
    expense_splits := [{ user_id := "A", amount := 1 }] }

/-- Input record of `generateGooglePayUrl` (the `GooglePayParams`
interface in the source). Strings are modelled at character level so URL
encoding can be reasoned about; the amount — the JavaScript number passed
to `amount.toFixed(2)` — is modelled as an exact rational. -/
structure GooglePayParams where
  upiId : List Char
  amount : ℚ
  name : List Char
  note : List Char
deriving DecidableEq, Repr

/-- Characters the `application/x-www-form-urlencoded` serializer used
by `URLSearchParams.toString()` leaves unescaped: ASCII alphanumerics
and `*`, `-`, `.`, `_`. -/
def isFormUnreserved (c : Char) : Bool :=
  c.isAlphanum || c == '*' || c == '-' || c == '.' || c == '_'

/-- Uppercase hexadecimal digit character for a nibble. -/
def hexDigitChar (d : ℕ) : Char :=
  match d with
  | 0 => '0' | 1 => '1' | 2 => '2' | 3 => '3' | 4 => '4'
  | 5 => '5' | 6 => '6' | 7 => '7' | 8 => '8' | 9 => '9'
  | 10 => 'A' | 11 => 'B' | 12 => 'C' | 13 => 'D' | 14 => 'E'
  | 15 => 'F' | _ => '0'

/-- Form-urlencoding of one character: unreserved characters stand for
themselves, space becomes `+`, anything else is percent-encoded from its
code point. The single-byte percent form is faithful for the ASCII
inputs the claims quantify over (multi-byte UTF-8 for non-ASCII input is
not modelled). -/
def encodeChar (c : Char) : List Char :=
  if isFormUnreserved c then [c]
  else if c = ' ' then ['+']
  else ['%', hexDigitChar (c.toNat / 16 % 16), hexDigitChar (c.toNat % 16)]

/-- Form-urlencoding of a whole string, character by character. -/
def formEncode : List Char → List Char
  | [] => []
  | c :: s => encodeChar c ++ formEncode s

/-- Decimal digit character. -/
def digitChar (d : ℕ) : Char :=
  match d with
  | 0 => '0' | 1 => '1' | 2 => '2' | 3 => '3' | 4 => '4'
  | 5 => '5' | 6 => '6' | 7 => '7' | 8 => '8' | 9 => '9'
  | _ => '0'

/-- Numeric value of a decimal digit character (left inverse of
`digitChar` on digits). -/
def digitVal (c : Char) : ℕ :=
  match c with
  | '0' => 0 | '1' => 1 | '2' => 2 | '3' => 3 | '4' => 4
  | '5' => 5 | '6' => 6 | '7' => 7 | '8' => 8 | '9' => 9
  | _ => 0

/-- Decimal rendering of a natural number, most significant digit
first. -/
def natDigits (n : ℕ) : List Char :=
  if _h : n < 10 then [digitChar n]
  else natDigits (n / 10) ++ [digitChar (n % 10)]
termination_by n
decreasing_by omega

/-- Reads a decimal digit string back into a number. -/
def digitsVal (s : List Char) : ℕ :=
  s.foldl (fun a c => a * 10 + digitVal c) 0

/-- Two-digit zero-padded rendering of a cents value. -/
def pad2 (n : ℕ) : List Char :=
  [digitChar (n / 10 % 10), digitChar (n % 10)]

/-- JavaScript's `amount.toFixed(2)` on a decimal currency value: round
the amount to a whole number of cents, then render an optional sign, the
integer part, a dot, and exactly two fractional digits. -/
def toFixed2Chars (q : ℚ) : List Char :=
  (if round (q * 100) < 0 then ['-'] else [])
    ++ natDigits ((round (q * 100)).natAbs / 100)
    ++ '.' :: pad2 ((round (q * 100)).natAbs % 100)

/-- `URLSearchParams.toString()`: the `key=value` pairs, each side
form-urlencoded, joined with `&`. -/
def serializeParams : List (List Char × List Char) → List Char
  | [] => []
  | [kv] => formEncode kv.1 ++ ('=' :: formEncode kv.2)
  | kv :: rest =>
    formEncode kv.1 ++ ('=' :: (formEncode kv.2
      ++ ('&' :: serializeParams rest)))

/-- The settlement deep-link builder (`generateGooglePayUrl` in the
source): build the `pa`, `pn`, `am`, `cu`, `tn` parameters in insertion
order, serialize them, and prepend the `upi://pay?` scheme. -/
def generateGooglePayUrl (p : GooglePayParams) : List Char :=
  "upi://pay?".data ++ serializeParams
    [("pa".data, p.upiId),
     ("pn".data, p.name),
     ("am".data, toFixed2Chars p.amount),
     ("cu".data, "INR".data),
     ("tn".data, p.note)]

/-- Fixture: a concrete well-formed ASCII settlement request. -/
def gpSample : GooglePayParams :=
  { upiId := "merchant@upi".data
    amount := 123/100
    name := "Jo".data
    note := "hi there".data }

/-- One `group_expenses` row as written by the modal's first insert. -/
structure GroupExpenseRow where
  id : ℕ
  group_id : String
  paid_by : String
  title : String
  amount : ℚ
deriving DecidableEq, Repr

/-- One `expense_splits` row as written by the modal's second insert. -/
structure ExpenseSplitRow where
  group_expense_id : ℕ
  user_id : String
  amount : ℚ
deriving DecidableEq, Repr

/-- The slice of backend state the submission touches: the two tables,
plus the id the next inserted expense row receives (the source's
`.select().single()` returns the inserted row including its fresh id). -/
structure Store where
  nextId : ℕ
  group_expenses : List GroupExpenseRow
  expense_splits : List ExpenseSplitRow
deriving DecidableEq, Repr

/-- Outcome of one submission of the add-group-expense form.
`validationError` carries the computed split sum and the expected total,
which the source interpolates into the message
`Split total (...) must equal expense amount (...)`;
`expenseInsertError` and `splitsInsertError` are the two storage-failure
early returns; `success` is the happy path. -/
inductive SubmitOutcome where
  | validationError (splitTotal expenseAmount : ℚ)
  | expenseInsertError
  | splitsInsertError
  | success
deriving DecidableEq, Repr

/-- `Object.values(splits).reduce((sum, val) => sum + val, 0)`. -/
def splitTotal (splits : List (String × ℚ)) : ℚ :=
  (splits.map Prod.snd).foldl (· + ·) 0

/-- The modal's `handleSubmit`: reject unless the split sum matches the
expense amount within `0.01`; otherwise insert the `group_expenses` row,
then insert one `expense_splits` row per split. The outcomes of the two
storage inserts are inputs (`expenseInsertOk`, `splitsInsertOk`) since
the external collaborator may fail either step; the early-return
structure mirrors the source. -/
def handleSubmit (st : Store) (expenseInsertOk splitsInsertOk : Bool)
    (groupId userId title : String) (expenseAmount : ℚ)
    (splits : List (String × ℚ)) : Store × SubmitOutcome :=
  if |splitTotal splits - expenseAmount| > 1/100 then
    (st, SubmitOutcome.validationError (splitTotal splits) expenseAmount)
  else if expenseInsertOk = false then
    (st, SubmitOutcome.expenseInsertError)
  else
    let row : GroupExpenseRow :=
      { id := st.nextId
        group_id := groupId
        paid_by := userId
        title := title
        amount := expenseAmount }
    let st1 : Store :=
      { nextId := st.nextId + 1
        group_expenses := st.group_expenses ++ [row]
        expense_splits := st.expense_splits }
    if splitsInsertOk = false then
      (st1, SubmitOutcome.splitsInsertError)
    else
      ({ st1 with
          expense_splits := st1.expense_splits ++ splits.map
            (fun p =>
              { group_expense_id := row.id
                user_id := p.1
                amount := p.2 }) },
        SubmitOutcome.success)

lemma foldl_applySplit (splits : List ExpenseSplit) (m : BalanceMap)
    (u : String) :
    (splits.foldl applySplit m) u =
      m u - ((splits.filter (fun s => s.user_id = u)).map
        (fun s => s.amount)).sum := by
  induction splits generalizing m with
  | nil => simp
  | cons s rest ih =>
    rw [List.foldl_cons, ih]
    have happ : applySplit m s u =
        if u = s.user_id then m u - s.amount else m u := rfl
    by_cases h : s.user_id = u
    · rw [happ, if_pos h.symm]
      simp only [List.filter_cons, h, decide_True, if_true, List.map_cons,
        List.sum_cons]
      ring
    · have h' : ¬ (u = s.user_id) := fun hh => h hh.symm
      rw [happ, if_neg h']
      simp [List.filter_cons, h]

lemma specBalance_cons (e : GroupExpense) (es : List GroupExpense)
    (u : String) :
    specBalance (e :: es) u =
      (if e.paid_by = u then e.amount else 0)
        - ((e.expense_splits.filter (fun s => s.user_id = u)).map
            (fun s => s.amount)).sum
        + specBalance es u := by
  by_cases h : e.paid_by = u
  · simp [specBalance, paidTotal, owedTotal, List.filter_cons, h]
    ring
  · simp [specBalance, paidTotal, owedTotal, List.filter_cons, h]
    ring

lemma foldl_applyExpense (expenses : List GroupExpense) (m : BalanceMap)
    (u : String) :
    (expenses.foldl applyExpense m) u = m u + specBalance expenses u := by
  induction expenses generalizing m with
  | nil => simp [specBalance, paidTotal, owedTotal]
  | cons e rest ih =>
    rw [List.foldl_cons, ih, specBalance_cons]
    simp only [applyExpense, foldl_applySplit]
    by_cases h : e.paid_by = u
    · rw [if_pos h.symm, if_pos h]
      ring
    · rw [if_neg (fun hh => h hh.symm), if_neg h]
      ring

lemma calculateBalances_balance (expenses : List GroupExpense)
    (members : List Member) (m : Member) (hm : m ∈ members) :
    { user_id := m.user_id
      user_name := displayName m.full_name
      user_email := m.email
      balance := specBalance expenses m.user_id : Balance }
      ∈ calculateBalances expenses members := by
  have h := foldl_applyExpense expenses (fun _ => 0) m.user_id
  simp only [calculateBalances]
  refine List.mem_map.mpr ⟨m, hm, ?_⟩
  rw [h]
  simp

/-- C1: the balance engine computes exactly the fold the spec gives —
every member starts at 0, each expense credits its payer with the full
amount and debits every split member by their owed share, and the output
is the final per-member mapping. Stated as: the engine's per-member
output equals the spec-side closed form (payer credit minus split
debits) for every member, in member-list order. -/
theorem calculateBalances_eq_spec (expenses : List GroupExpense)
    (members : List Member) :
    (calculateBalances expenses members).map (fun b => (b.user_id, b.balance))
      = members.map (fun m => (m.user_id, specBalance expenses m.user_id)) := by
  simp only [calculateBalances, List.map_map]
  refine List.map_congr_left (fun m _ => ?_)
  simp [foldl_applyExpense]

lemma sum_map_add {α : Type} (f g : α → ℚ) (l : List α) :
    (l.map (fun x => f x + g x)).sum = (l.map f).sum + (l.map g).sum := by
  induction l with
  | nil => simp
  | cons a t ih =>
    simp only [List.map_cons, List.sum_cons, ih]
    ring

lemma sum_map_sub {α : Type} (f g : α → ℚ) (l : List α) :
    (l.map (fun x => f x - g x)).sum = (l.map f).sum - (l.map g).sum := by
  induction l with
  | nil => simp
  | cons a t ih =>
    simp only [List.map_cons, List.sum_cons, ih]
    ring

lemma sum_ite_eq_single (ids : List String) (v : String) (a : ℚ)
    (hnd : ids.Nodup) (hv : v ∈ ids) :
    (ids.map (fun u => if v = u then a else 0)).sum = a := by
  induction ids with
  | nil => cases hv
  | cons i t ih =>
    rcases List.nodup_cons.mp hnd with ⟨hi, ht⟩
    rcases List.mem_cons.mp hv with h | h
    · subst h
      simp only [List.map_cons, List.sum_cons, if_pos rfl]
      have hz : ∀ u ∈ t, (if v = u then a else 0) = 0 := by
        intro u hu
        rw [if_neg]
        intro hvu
        exact hi (hvu ▸ hu)
      have : (t.map (fun u => if v = u then a else 0)).sum = 0 := by
        refine List.sum_eq_zero ?_
        intro x hx
        rcases List.mem_map.mp hx with ⟨u, hu, hux⟩
        rw [← hux]
        exact hz u hu
      rw [this, add_zero]
      simp
    · have hvi : v ≠ i := fun hh => (List.nodup_cons.mp hnd).1 (hh ▸ h)
      simp only [List.map_cons, List.sum_cons, if_neg hvi, zero_add]
      exact ih ht h

lemma paidTotal_cons (e : GroupExpense) (es : List GroupExpense)
    (u : String) :
    paidTotal (e :: es) u =
      (if e.paid_by = u then e.amount else 0) + paidTotal es u := by
  by_cases h : e.paid_by = u <;>
    simp [paidTotal, List.filter_cons, h]

lemma owedTotal_cons (e : GroupExpense) (es : List GroupExpense)
    (u : String) :
    owedTotal (e :: es) u =
      ((e.expense_splits.filter (fun s => s.user_id = u)).map
        (fun s => s.amount)).sum + owedTotal es u := by
  simp [owedTotal]

lemma sum_paidTotal (es : List GroupExpense) (ids : List String)
    (hnd : ids.Nodup) (hp : ∀ e ∈ es, e.paid_by ∈ ids) :
    (ids.map (fun u => paidTotal es u)).sum
      = (es.map (fun e => e.amount)).sum := by
  induction es with
  | nil =>
    simp only [List.map_nil, List.sum_nil]
    refine List.sum_eq_zero ?_
    intro x hx
    rcases List.mem_map.mp hx with ⟨u, _, hux⟩
    rw [← hux]
    simp [paidTotal]
  | cons e rest ih =>
    have hcong : ids.map (fun u => paidTotal (e :: rest) u)
        = ids.map (fun u =>
            (if e.paid_by = u then e.amount else 0) + paidTotal rest u) :=
      List.map_congr_left (fun u _ => paidTotal_cons e rest u)
    rw [hcong, sum_map_add,
      sum_ite_eq_single ids e.paid_by e.amount hnd (hp e (by simp)),
      ih (fun x hx => hp x (List.mem_cons_of_mem e hx))]
    simp

lemma sum_filter_splits (splits : List ExpenseSplit) (ids : List String)
    (hnd : ids.Nodup) (hs : ∀ s ∈ splits, s.user_id ∈ ids) :
    (ids.map (fun u =>
      ((splits.filter (fun s => s.user_id = u)).map
        (fun s => s.amount)).sum)).sum
      = (splits.map (fun s => s.amount)).sum := by
  induction splits with
  | nil =>
    simp only [List.map_nil, List.sum_nil]
    refine List.sum_eq_zero ?_
    intro x hx
    rcases List.mem_map.mp hx with ⟨u, _, hux⟩
    rw [← hux]
    simp
  | cons s t ih =>
    have hstep : ∀ u : String,
        (((s :: t).filter (fun s' => s'.user_id = u)).map
          (fun s' => s'.amount)).sum
        = (if s.user_id = u then s.amount else 0)
          + ((t.filter (fun s' => s'.user_id = u)).map
              (fun s' => s'.amount)).sum := by
      intro u
      by_cases h : s.user_id = u <;> simp [List.filter_cons, h]
    have hcong := List.map_congr_left (fun u (_ : u ∈ ids) => hstep u)
    rw [hcong, sum_map_add,
      sum_ite_eq_single ids s.user_id s.amount hnd (hs s (by simp)),
      ih (fun x hx => hs x (List.mem_cons_of_mem s hx))]
    simp

lemma sum_owedTotal (es : List GroupExpense) (ids : List String)
    (hnd : ids.Nodup)
    (hs : ∀ e ∈ es, ∀ s ∈ e.expense_splits, s.user_id ∈ ids) :
    (ids.map (fun u => owedTotal es u)).sum
      = (es.map splitsTotal).sum := by
  induction es with
  | nil =>
    simp only [List.map_nil, List.sum_nil]
    refine List.sum_eq_zero ?_
    intro x hx
    rcases List.mem_map.mp hx with ⟨u, _, hux⟩
    rw [← hux]
    simp [owedTotal]
  | cons e rest ih =>
    have hcong : ids.map (fun u => owedTotal (e :: rest) u)
        = ids.map (fun u =>
            ((e.expense_splits.filter (fun s => s.user_id = u)).map
              (fun s => s.amount)).sum + owedTotal rest u) :=
      List.map_congr_left (fun u _ => owedTotal_cons e rest u)
    rw [hcong, sum_map_add,
      sum_filter_splits e.expense_splits ids hnd (hs e (by simp)),
      ih (fun x hx => hs x (List.mem_cons_of_mem e hx))]
    simp [splitsTotal]

lemma sum_specBalance (es : List GroupExpense) (ids : List String)
    (hnd : ids.Nodup) (hp : ∀ e ∈ es, e.paid_by ∈ ids)
    (hs : ∀ e ∈ es, ∀ s ∈ e.expense_splits, s.user_id ∈ ids) :
    (ids.map (fun u => specBalance es u)).sum
      = (es.map (fun e => e.amount - splitsTotal e)).sum := by
  have hcong : ids.map (fun u => specBalance es u)
      = ids.map (fun u => paidTotal es u - owedTotal es u) :=
    List.map_congr_left (fun u _ => rfl)
  rw [hcong, sum_map_sub, sum_paidTotal es ids hnd hp,
    sum_owedTotal es ids hnd hs, sum_map_sub]

lemma sum_calculateBalances (es : List GroupExpense) (members : List Member) :
    ((calculateBalances es members).map Balance.balance).sum
      = ((members.map Member.user_id).map (fun u => specBalance es u)).sum := by
  simp only [calculateBalances, List.map_map]
  congr 1
  refine List.map_congr_left (fun m _ => ?_)
  simp [foldl_applyExpense]

/-- C2 (counterexample): with one member `A` and two expenses each `0.01`
under-split — each individually inside the entry-time tolerance, with all
payers and split members in the member set — the output balances sum to
`0.02`, which is outside `±0.01`. -/
theorem balances_sum_counterexample :
    ([exOff, exOff].all (fun e => e.paid_by ∈ [memA].map Member.user_id)
        = true)
    ∧ ([exOff, exOff].all
        (fun e => e.expense_splits.all
          (fun s => s.user_id ∈ [memA].map Member.user_id)) = true)
    ∧ ([memA].map Member.user_id).Nodup
    ∧ (∀ e ∈ [exOff, exOff], |splitsTotal e - e.amount| ≤ 1/100)
    ∧ ¬ |((calculateBalances [exOff, exOff] [memA]).map Balance.balance).sum|
        ≤ 1/100 := by
  refine ⟨by decide, by decide, by decide, ?_, ?_⟩
  · intro e he
    have : e = exOff := by
      rcases List.mem_cons.mp he with h | h
      · exact h
      · simpa using h
    subst this
    norm_num [splitsTotal, exOff, abs_le]
  · have hval :
        ((calculateBalances [exOff, exOff] [memA]).map Balance.balance).sum
          = 1/50 := by
      norm_num [calculateBalances, applyExpense, applySplit, exOff, memA]
    rw [hval]
    norm_num [abs_le]

/-- C2 (amended): under the per-expense `±0.01` entry tolerance, with
every payer and split member in the (duplicate-free) member set, the
output balances sum to zero within `±0.01 × (number of expenses)` — not
within a flat `±0.01`; and when every expense's splits reconcile exactly,
the sum is exactly zero. -/
theorem balances_sum_bound (members : List Member) (es : List GroupExpense)
    (hnd : (members.map Member.user_id).Nodup)
    (hp : ∀ e ∈ es, e.paid_by ∈ members.map Member.user_id)
    (hs : ∀ e ∈ es, ∀ s ∈ e.expense_splits,
      s.user_id ∈ members.map Member.user_id)
    (htol : ∀ e ∈ es, |splitsTotal e - e.amount| ≤ 1/100) :
    |((calculateBalances es members).map Balance.balance).sum|
        ≤ es.length * (1/100)
    ∧ ((∀ e ∈ es, splitsTotal e = e.amount) →
        ((calculateBalances es members).map Balance.balance).sum = 0) := by
  have hsum : ((calculateBalances es members).map Balance.balance).sum
      = (es.map (fun e => e.amount - splitsTotal e)).sum := by
    rw [sum_calculateBalances, sum_specBalance es _ hnd hp hs]
  have habs : ∀ l : List ℚ, |l.sum| ≤ (l.map (fun x => |x|)).sum := by
    intro l
    induction l with
    | nil => simp
    | cons a t ih =>
      simp only [List.sum_cons, List.map_cons]
      exact le_trans (abs_add a t.sum) (by linarith)
  constructor
  · rw [hsum]
    calc |(es.map (fun e => e.amount - splitsTotal e)).sum|
        ≤ ((es.map (fun e => e.amount - splitsTotal e)).map
            (fun x => |x|)).sum := habs _
      _ ≤ es.length * (1/100) := by
          rw [List.map_map]
          have hb : ∀ x ∈ es.map (fun e => |e.amount - splitsTotal e|),
              x ≤ (1/100 : ℚ) := by
            intro x hx
            rcases List.mem_map.mp hx with ⟨e, he, hex⟩
            rw [← hex, abs_sub_comm]
            exact htol e he
          have := List.sum_le_card_nsmul _ (1/100 : ℚ) hb
          simpa [nsmul_eq_mul] using this
  · intro hexact
    rw [hsum]
    refine List.sum_eq_zero ?_
    intro x hx
    rcases List.mem_map.mp hx with ⟨e, he, hex⟩
    rw [← hex, hexact e he, sub_self]

/-- Witness for `balances_sum_bound`: one member, one exactly-reconciled
expense; the hypotheses hold and the balances sum to zero, inside the
per-expense bound. -/
theorem balances_sum_bound_witness :
    |((calculateBalances [exGood] [memA]).map Balance.balance).sum|
        ≤ ([exGood] : List GroupExpense).length * (1/100)
    ∧ ((∀ e ∈ [exGood], splitsTotal e = e.amount) →
        ((calculateBalances [exGood] [memA]).map Balance.balance).sum = 0) :=
  balances_sum_bound [memA] [exGood] (by decide)
    (by decide) (by decide)
    (by
      intro e he
      have : e = exGood := by simpa using he
      subst this
      norm_num [splitsTotal, exGood])

lemma specBalance_eq_zero (es : List GroupExpense) (u : String)
    (hp : ∀ e ∈ es, e.paid_by ≠ u)
    (hs : ∀ e ∈ es, ∀ s ∈ e.expense_splits, s.user_id ≠ u) :
    specBalance es u = 0 := by
  have hpaid : paidTotal es u = 0 := by
    have : es.filter (fun e => e.paid_by = u) = [] := by
      refine List.filter_eq_nil_iff.mpr ?_
      intro e he
      simpa using hp e he
    simp [paidTotal, this]
  have howed : owedTotal es u = 0 := by
    refine List.sum_eq_zero ?_
    intro x hx
    rcases List.mem_map.mp hx with ⟨e, he, hex⟩
    rw [← hex]
    have : e.expense_splits.filter (fun s => s.user_id = u) = [] := by
      refine List.filter_eq_nil_iff.mpr ?_
      intro s hsx
      simpa using hs e he s hsx
    simp [this]
  simp [specBalance, hpaid, howed]

/-- C7: with zero expenses every member's output balance is exactly `0`
(one entry per member, in member order); and a member who appears in the
member set but in no expense — neither as payer nor in any split — still
appears in the output, with balance exactly `0`. -/
theorem calculateBalances_edge_cases (members : List Member)
    (es : List GroupExpense) (m : Member) (hm : m ∈ members)
    (hp : ∀ e ∈ es, e.paid_by ≠ m.user_id)
    (hs : ∀ e ∈ es, ∀ s ∈ e.expense_splits, s.user_id ≠ m.user_id) :
    (∀ b ∈ calculateBalances [] members, b.balance = 0)
    ∧ (calculateBalances [] members).map Balance.user_id
        = members.map Member.user_id
    ∧ ∃ b ∈ calculateBalances es members,
        b.user_id = m.user_id ∧ b.balance = 0 := by
  refine ⟨?_, ?_, ?_⟩
  · intro b hb
    simp only [calculateBalances] at hb
    rcases List.mem_map.mp hb with ⟨x, _, hxb⟩
    rw [← hxb]
    rfl
  · simp [calculateBalances]
  · exact ⟨_, calculateBalances_balance es members m hm, rfl,
      specBalance_eq_zero es m.user_id hp hs⟩

/-- Witness for `calculateBalances_edge_cases`: member `B` belongs to the
group but appears in no expense of `[exGood]` (paid and split by `A`
only); `B` still gets an output entry with balance `0`. -/
theorem calculateBalances_edge_cases_witness :
    (∀ b ∈ calculateBalances [] [memA, memB], b.balance = 0)
    ∧ (calculateBalances [] [memA, memB]).map Balance.user_id
        = [memA, memB].map Member.user_id
    ∧ ∃ b ∈ calculateBalances [exGood] [memA, memB],
        b.user_id = memB.user_id ∧ b.balance = 0 :=
  calculateBalances_edge_cases [memA, memB] [exGood] memB (by decide)
    (by decide) (by decide)

/-- C10 (implicit): the engine's output has exactly one entry per member
of the member list, in that order, and nothing else; an id occurring as
payer or split member but absent from the member list is accumulated in
the internal map yet dropped from the output, so the output can sum to a
nonzero value even though every expense's splits reconcile exactly. The
concrete part uses `exGhost` (payer `B`, not a member): `B`'s `+1` credit
is dropped and the output sums to `-1`. -/
theorem calculateBalances_members_only :
    (∀ (es : List GroupExpense) (members : List Member),
      (calculateBalances es members).map Balance.user_id
        = members.map Member.user_id)
    ∧ (∀ e ∈ [exGhost], splitsTotal e = e.amount)
    ∧ ((calculateBalances [exGhost] [memA]).map Balance.balance).sum ≠ 0
    ∧ ([exGhost].foldl applyExpense (fun _ => 0)) "B" ≠ 0
    ∧ (∀ b ∈ calculateBalances [exGhost] [memA], b.user_id ≠ "B") := by
  refine ⟨?_, ?_, ?_, ?_, ?_⟩
  · intro es members
    simp [calculateBalances]
  · intro e he
    have : e = exGhost := by simpa using he
    subst this
    norm_num [splitsTotal, exGhost]
  · norm_num [calculateBalances, applyExpense, applySplit, exGhost, memA]
    rw [if_neg (by decide : ¬ ("A" : String) = "B")]
    norm_num
  · norm_num [applyExpense, applySplit, exGhost]
    decide
  · intro b hb
    simp only [calculateBalances] at hb
    rcases List.mem_map.mp hb with ⟨x, hx, hxb⟩
    have : x = memA := by simpa using hx
    subst this
    rw [← hxb]
    decide

/-- Witness for `calculateBalances_members_only`: instantiating the
universally quantified part at the ghost-payer fixture. -/
theorem calculateBalances_members_only_witness :
    (calculateBalances [exGhost] [memA]).map Balance.user_id
      = [memA].map Member.user_id :=
  calculateBalances_members_only.1 [exGhost] [memA]

lemma handleSubmit_reject_eq (st : Store) (eOk sOk : Bool)
    (gid uid ttl : String) (a : ℚ) (sp : List (String × ℚ))
    (h : |splitTotal sp - a| > 1/100) :
    handleSubmit st eOk sOk gid uid ttl a sp
      = (st, SubmitOutcome.validationError (splitTotal sp) a) := by
  simp only [handleSubmit]
  rw [if_pos h]

lemma handleSubmit_expFail_eq (st : Store) (sOk : Bool)
    (gid uid ttl : String) (a : ℚ) (sp : List (String × ℚ))
    (h : ¬ |splitTotal sp - a| > 1/100) :
    handleSubmit st false sOk gid uid ttl a sp
      = (st, SubmitOutcome.expenseInsertError) := by
  simp only [handleSubmit]
  rw [if_neg h]
  simp

lemma handleSubmit_splitsFail_eq (st : Store)
    (gid uid ttl : String) (a : ℚ) (sp : List (String × ℚ))
    (h : ¬ |splitTotal sp - a| > 1/100) :
    handleSubmit st true false gid uid ttl a sp
      = ({ nextId := st.nextId + 1
           group_expenses := st.group_expenses
             ++ [{ id := st.nextId
                   group_id := gid
                   paid_by := uid
                   title := ttl
                   amount := a }]
           expense_splits := st.expense_splits },
         SubmitOutcome.splitsInsertError) := by
  simp only [handleSubmit]
  rw [if_neg h]
  simp

lemma handleSubmit_success_eq (st : Store)
    (gid uid ttl : String) (a : ℚ) (sp : List (String × ℚ))
    (h : ¬ |splitTotal sp - a| > 1/100) :
    handleSubmit st true true gid uid ttl a sp
      = ({ nextId := st.nextId + 1
           group_expenses := st.group_expenses
             ++ [{ id := st.nextId
                   group_id := gid
                   paid_by := uid
                   title := ttl
                   amount := a }]
           expense_splits := st.expense_splits ++ sp.map
             (fun p =>
               { group_expense_id := st.nextId
                 user_id := p.1
                 amount := p.2 }) },
         SubmitOutcome.success) := by
  simp only [handleSubmit]
  rw [if_neg h]
  simp

/-- C3: split validation accepts a proposed split set iff the absolute
difference between the split sum and the expense amount is at most
`0.01`: the submission returns a validation error exactly when the gap
exceeds `0.01`, and within the tolerance (including a gap of exactly
`0.01`) it proceeds to the storage writes. -/
theorem handleSubmit_validation_iff (st : Store) (eOk sOk : Bool)
    (gid uid ttl : String) (a : ℚ) (sp : List (String × ℚ)) :
    ((handleSubmit st eOk sOk gid uid ttl a sp).2
        = SubmitOutcome.validationError (splitTotal sp) a
      ↔ |splitTotal sp - a| > 1/100)
    ∧ (|splitTotal sp - a| ≤ 1/100 →
        (handleSubmit st eOk sOk gid uid ttl a sp).2
            = SubmitOutcome.expenseInsertError
        ∨ (handleSubmit st eOk sOk gid uid ttl a sp).2
            = SubmitOutcome.splitsInsertError
        ∨ (handleSubmit st eOk sOk gid uid ttl a sp).2
            = SubmitOutcome.success) := by
  by_cases hv : |splitTotal sp - a| > 1/100
  · exact ⟨⟨fun _ => hv,
      fun _ => by rw [handleSubmit_reject_eq st eOk sOk gid uid ttl a sp hv]⟩,
      fun hle => absurd hv (not_lt.mpr hle)⟩
  · refine ⟨⟨fun h => ?_, fun h => absurd h hv⟩, fun _ => ?_⟩
    · cases eOk <;> cases sOk
      · rw [handleSubmit_expFail_eq _ _ _ _ _ _ _ hv] at h
        simp at h
      · rw [handleSubmit_expFail_eq _ _ _ _ _ _ _ hv] at h
        simp at h
      · rw [handleSubmit_splitsFail_eq _ _ _ _ _ _ hv] at h
        simp at h
      · rw [handleSubmit_success_eq _ _ _ _ _ _ hv] at h
        simp at h
    · cases eOk <;> cases sOk
      · rw [handleSubmit_expFail_eq _ _ _ _ _ _ _ hv]
        simp
      · rw [handleSubmit_expFail_eq _ _ _ _ _ _ _ hv]
        simp
      · rw [handleSubmit_splitsFail_eq _ _ _ _ _ _ hv]
        simp
      · rw [handleSubmit_success_eq _ _ _ _ _ _ hv]
        simp

/-- Witness for `handleSubmit_validation_iff` at the tolerance boundary:
a split sum of `1.01` against a total of `1` differs by exactly `0.01`
and is accepted — with both inserts succeeding the outcome is
`success`. -/
theorem handleSubmit_validation_iff_witness :
    ((handleSubmit ⟨0, [], []⟩ true true "g" "u" "t" 1 [("A", 101/100)]).2
        = SubmitOutcome.validationError (splitTotal [("A", 101/100)]) 1
      ↔ |splitTotal [("A", 101/100)] - 1| > 1/100)
    ∧ (|splitTotal [("A", 101/100)] - 1| ≤ 1/100 →
        (handleSubmit ⟨0, [], []⟩ true true "g" "u" "t" 1
            [("A", 101/100)]).2 = SubmitOutcome.expenseInsertError
        ∨ (handleSubmit ⟨0, [], []⟩ true true "g" "u" "t" 1
            [("A", 101/100)]).2 = SubmitOutcome.splitsInsertError
        ∨ (handleSubmit ⟨0, [], []⟩ true true "g" "u" "t" 1
            [("A", 101/100)]).2 = SubmitOutcome.success) :=
  handleSubmit_validation_iff ⟨0, [], []⟩ true true "g" "u" "t" 1
    [("A", 101/100)]

/-- C8: when split validation fails, the outcome carries both the
computed split sum and the expected total (the source interpolates both
into the displayed message), and the storage state is untouched —
neither the expense row nor any split row is written. -/
theorem handleSubmit_reject_no_write (st : Store) (eOk sOk : Bool)
    (gid uid ttl : String) (a : ℚ) (sp : List (String × ℚ))
    (h : |splitTotal sp - a| > 1/100) :
    (handleSubmit st eOk sOk gid uid ttl a sp).2
        = SubmitOutcome.validationError (splitTotal sp) a
    ∧ (handleSubmit st eOk sOk gid uid ttl a sp).1 = st := by
  rw [handleSubmit_reject_eq st eOk sOk gid uid ttl a sp h]
  exact ⟨rfl, rfl⟩

/-- Witness for `handleSubmit_reject_no_write`: a split sum of `1`
against a total of `1.02` is `0.02` off, gets the validation error with
both figures, and leaves the store unchanged. -/
theorem handleSubmit_reject_no_write_witness :
    |splitTotal [("A", (1 : ℚ))] - 51/50| > 1/100
    ∧ ((handleSubmit ⟨0, [], []⟩ true true "g" "u" "t" (51/50)
          [("A", 1)]).2
        = SubmitOutcome.validationError (splitTotal [("A", (1 : ℚ))])
            (51/50)
      ∧ (handleSubmit ⟨0, [], []⟩ true true "g" "u" "t" (51/50)
          [("A", 1)]).1 = ⟨0, [], []⟩) := by
  have h : |splitTotal [("A", (1 : ℚ))] - 51/50| > 1/100 := by
    norm_num [splitTotal, lt_abs]
  exact ⟨h, handleSubmit_reject_no_write ⟨0, [], []⟩ true true "g" "u" "t"
    (51/50) [("A", 1)] h⟩

/-- C4 (counterexample): with an empty store, an exactly reconciled
split set, a successful expense insert and a failing splits insert, the
final state differs from the initial one — the expense row survives the
failed second step, so the pair of writes is not "together or not at
all". -/
theorem handleSubmit_partial_write_counterexample :
    |splitTotal [("A", (1 : ℚ))] - 1| ≤ 1/100
    ∧ (handleSubmit ⟨0, [], []⟩ true false "g" "u" "t" 1 [("A", 1)]).2
        = SubmitOutcome.splitsInsertError
    ∧ (handleSubmit ⟨0, [], []⟩ true false "g" "u" "t" 1 [("A", 1)]).1
        ≠ (⟨0, [], []⟩ : Store) := by
  have hv : ¬ |splitTotal [("A", (1 : ℚ))] - 1| > 1/100 := by
    norm_num [splitTotal]
  refine ⟨by norm_num [splitTotal],
    by rw [handleSubmit_splitsFail_eq _ _ _ _ _ _ hv], ?_⟩
  intro h
  have hge := congrArg Store.group_expenses h
  rw [handleSubmit_splitsFail_eq _ _ _ _ _ _ hv] at hge
  simp at hge

/-- C4 (amended): the two-step write is not atomic — whenever the splits
insert fails after the expense insert succeeded on an accepted split
set, the expense row remains appended to the store with none of its
splits written, and the outcome reports the splits-insert failure. No
compensating deletion occurs. -/
theorem handleSubmit_orphan_on_splits_failure (st : Store)
    (gid uid ttl : String) (a : ℚ) (sp : List (String × ℚ))
    (hv : ¬ |splitTotal sp - a| > 1/100) :
    (handleSubmit st true false gid uid ttl a sp).1.group_expenses
        = st.group_expenses
            ++ [{ id := st.nextId
                  group_id := gid
                  paid_by := uid
                  title := ttl
                  amount := a }]
    ∧ (handleSubmit st true false gid uid ttl a sp).1.expense_splits
        = st.expense_splits
    ∧ (handleSubmit st true false gid uid ttl a sp).2
        = SubmitOutcome.splitsInsertError := by
  rw [handleSubmit_splitsFail_eq st gid uid ttl a sp hv]
  exact ⟨rfl, rfl, rfl⟩

/-- Witness for `handleSubmit_orphan_on_splits_failure`: the concrete
failed-second-step run leaves exactly the orphaned expense row behind. -/
theorem handleSubmit_orphan_on_splits_failure_witness :
    (handleSubmit ⟨7, [], []⟩ true false "g" "u" "t" 1 [("A", 1)]).1.group_expenses
        = ([] : List GroupExpenseRow)
            ++ [{ id := 7
                  group_id := "g"
                  paid_by := "u"
                  title := "t"
                  amount := 1 }]
    ∧ (handleSubmit ⟨7, [], []⟩ true false "g" "u" "t" 1 [("A", 1)]).1.expense_splits
        = ([] : List ExpenseSplitRow)
    ∧ (handleSubmit ⟨7, [], []⟩ true false "g" "u" "t" 1 [("A", 1)]).2
        = SubmitOutcome.splitsInsertError :=
  handleSubmit_orphan_on_splits_failure ⟨7, [], []⟩ "g" "u" "t" 1 [("A", 1)]
    (by norm_num [splitTotal])

lemma gen_eq (p : GooglePayParams) :
    generateGooglePayUrl p
      = "upi://pay?pa=".data ++ (formEncode p.upiId ++ ('&' :: ("pn=".data
          ++ (formEncode p.name ++ ('&' :: ("am=".data
          ++ (formEncode (toFixed2Chars p.amount) ++ ('&' :: ("cu=INR&tn=".data
          ++ formEncode p.note))))))))) := rfl

lemma char_eq_of_toNat_eq {c d : Char} (h : c.toNat = d.toNat) : c = d :=
  Char.eq_of_val_eq (UInt32.ext h)

lemma hexDigitChar_inj_fin :
    ∀ a b : Fin 16, hexDigitChar a.val = hexDigitChar b.val → a = b := by
  decide

lemma hexDigitChar_inj {a b : ℕ} (ha : a < 16) (hb : b < 16)
    (h : hexDigitChar a = hexDigitChar b) : a = b :=
  congrArg Fin.val (hexDigitChar_inj_fin ⟨a, ha⟩ ⟨b, hb⟩ h)

lemma hexDigitChar_ne_amp (d : ℕ) : hexDigitChar d ≠ '&' := by
  unfold hexDigitChar
  split <;> decide

lemma encodeChar_ne_nil (c : Char) : encodeChar c ≠ [] := by
  unfold encodeChar
  split
  · simp
  · split <;> simp

lemma amp_not_mem_encodeChar (c : Char) : '&' ∉ encodeChar c := by
  unfold encodeChar
  split
  · rename_i h
    intro hmem
    rw [List.mem_singleton] at hmem
    rw [← hmem] at h
    exact absurd h (by decide)
  · split
    · intro hmem
      rw [List.mem_singleton] at hmem
      exact absurd hmem (by decide)
    · intro hmem
      simp only [List.mem_cons, List.mem_singleton,
        List.not_mem_nil, or_false] at hmem
      rcases hmem with h1 | h1 | h1
      · exact absurd h1 (by decide)
      · exact hexDigitChar_ne_amp _ h1.symm
      · exact hexDigitChar_ne_amp _ h1.symm

lemma amp_not_mem_formEncode (s : List Char) : '&' ∉ formEncode s := by
  induction s with
  | nil => simp [formEncode]
  | cons c t ih =>
    simp only [formEncode]
    intro hmem
    rcases List.mem_append.mp hmem with h | h
    · exact amp_not_mem_encodeChar c h
    · exact ih h

lemma encodeChar_chunk {c1 c2 : Char} (h1 : c1.toNat < 128)
    (h2 : c2.toNat < 128) {r1 r2 : List Char}
    (h : encodeChar c1 ++ r1 = encodeChar c2 ++ r2) : c1 = c2 ∧ r1 = r2 := by
  unfold encodeChar at h
  by_cases u1 : isFormUnreserved c1 = true <;>
    by_cases u2 : isFormUnreserved c2 = true
  · rw [if_pos u1, if_pos u2] at h
    simp only [List.cons_append, List.nil_append] at h
    injection h with ha hb
    exact ⟨ha, hb⟩
  · rw [if_pos u1, if_neg u2] at h
    by_cases s2 : c2 = ' '
    · rw [if_pos s2] at h
      simp only [List.cons_append, List.nil_append] at h
      injection h with ha _
      rw [ha] at u1
      exact absurd u1 (by decide)
    · rw [if_neg s2] at h
      simp only [List.cons_append, List.nil_append] at h
      injection h with ha _
      rw [ha] at u1
      exact absurd u1 (by decide)
  · rw [if_neg u1, if_pos u2] at h
    by_cases s1 : c1 = ' '
    · rw [if_pos s1] at h
      simp only [List.cons_append, List.nil_append] at h
      injection h with ha _
      rw [← ha] at u2
      exact absurd u2 (by decide)
    · rw [if_neg s1] at h
      simp only [List.cons_append, List.nil_append] at h
      injection h with ha _
      rw [← ha] at u2
      exact absurd u2 (by decide)
  · rw [if_neg u1, if_neg u2] at h
    by_cases s1 : c1 = ' ' <;> by_cases s2 : c2 = ' '
    · rw [if_pos s1, if_pos s2] at h
      simp only [List.cons_append, List.nil_append] at h
      injection h with _ hb
      exact ⟨s1.trans s2.symm, hb⟩
    · rw [if_pos s1, if_neg s2] at h
      simp only [List.cons_append, List.nil_append] at h
      injection h with ha _
      exact absurd ha (by decide)
    · rw [if_neg s1, if_pos s2] at h
      simp only [List.cons_append, List.nil_append] at h
      injection h with ha _
      exact absurd ha (by decide)
    · rw [if_neg s1, if_neg s2] at h
      simp only [List.cons_append, List.nil_append] at h
      injection h with _ h
      injection h with hhi h
      injection h with hlo h
      have hdiv : c1.toNat / 16 % 16 = c2.toNat / 16 % 16 :=
        hexDigitChar_inj (Nat.mod_lt _ (by omega)) (Nat.mod_lt _ (by omega))
          hhi
      have hmod : c1.toNat % 16 = c2.toNat % 16 :=
        hexDigitChar_inj (Nat.mod_lt _ (by omega)) (Nat.mod_lt _ (by omega))
          hlo
      refine ⟨char_eq_of_toNat_eq ?_, h⟩
      have e1 : c1.toNat / 16 % 16 = c1.toNat / 16 :=
        Nat.mod_eq_of_lt (by omega)
      have e2 : c2.toNat / 16 % 16 = c2.toNat / 16 :=
        Nat.mod_eq_of_lt (by omega)
      rw [e1, e2] at hdiv
      omega

lemma formEncode_inj {s1 s2 : List Char}
    (h1 : ∀ c ∈ s1, c.toNat < 128) (h2 : ∀ c ∈ s2, c.toNat < 128)
    (h : formEncode s1 = formEncode s2) : s1 = s2 := by
  induction s1 generalizing s2 with
  | nil =>
    cases s2 with
    | nil => rfl
    | cons d u =>
      exfalso
      simp only [formEncode] at h
      cases hc : encodeChar d with
      | nil => exact encodeChar_ne_nil d hc
      | cons x xs =>
        rw [hc] at h
        simp at h
  | cons c t ih =>
    cases s2 with
    | nil =>
      exfalso
      simp only [formEncode] at h
      cases hc : encodeChar c with
      | nil => exact encodeChar_ne_nil c hc
      | cons x xs =>
        rw [hc] at h
        simp at h
    | cons d u =>
      simp only [formEncode] at h
      obtain ⟨hcd, hr⟩ :=
        encodeChar_chunk (h1 c (by simp)) (h2 d (by simp)) h
      rw [hcd,
        ih (fun x hx => h1 x (List.mem_cons_of_mem c hx))
          (fun x hx => h2 x (List.mem_cons_of_mem d hx)) hr]

lemma append_sep_inj {sep : Char} {xs ys as bs : List Char}
    (hx : sep ∉ xs) (hy : sep ∉ ys)
    (h : xs ++ sep :: as = ys ++ sep :: bs) : xs = ys ∧ as = bs := by
  induction xs generalizing ys with
  | nil =>
    cases ys with
    | nil => simpa using h
    | cons y yt =>
      simp only [List.nil_append, List.cons_append] at h
      injection h with h1 _
      subst h1
      exact absurd (List.mem_cons_self _ _) hy
  | cons x xt ih =>
    cases ys with
    | nil =>
      simp only [List.nil_append, List.cons_append] at h
      injection h with h1 _
      subst h1
      exact absurd (List.mem_cons_self _ _) hx
    | cons y yt =>
      simp only [List.cons_append] at h
      injection h with h1 h2
      subst h1
      obtain ⟨ha, hb⟩ := ih (fun hm => hx (List.mem_cons_of_mem _ hm))
        (fun hm => hy (List.mem_cons_of_mem _ hm)) h2
      exact ⟨by rw [ha], hb⟩

lemma digitVal_digitChar_fin : ∀ d : Fin 10, digitVal (digitChar d.val) = d.val := by
  decide

lemma digitChar_isDigit_fin : ∀ d : Fin 10, (digitChar d.val).isDigit = true := by
  decide

lemma digitChar_inj_fin :
    ∀ a b : Fin 10, digitChar a.val = digitChar b.val → a = b := by
  decide

lemma digitChar_inj {a b : ℕ} (ha : a < 10) (hb : b < 10)
    (h : digitChar a = digitChar b) : a = b :=
  congrArg Fin.val (digitChar_inj_fin ⟨a, ha⟩ ⟨b, hb⟩ h)

lemma digitChar_ascii (d : ℕ) : (digitChar d).toNat < 128 := by
  unfold digitChar
  split <;> decide

lemma digitsVal_append_singleton (xs : List Char) (c : Char) :
    digitsVal (xs ++ [c]) = digitsVal xs * 10 + digitVal c := by
  simp [digitsVal, List.foldl_append]

lemma digitsVal_natDigits (n : ℕ) : digitsVal (natDigits n) = n := by
  induction n using natDigits.induct with
  | case1 n h =>
    rw [natDigits.eq_def, dif_pos h]
    have hv : digitVal (digitChar n) = n := digitVal_digitChar_fin ⟨n, h⟩
    simp [digitsVal, hv]
  | case2 n h ih =>
    rw [natDigits.eq_def, dif_neg h, digitsVal_append_singleton, ih]
    have hv : digitVal (digitChar (n % 10)) = n % 10 :=
      digitVal_digitChar_fin ⟨n % 10, Nat.mod_lt _ (by omega)⟩
    rw [hv]
    omega

lemma natDigits_inj {m n : ℕ} (h : natDigits m = natDigits n) : m = n := by
  have h2 := congrArg digitsVal h
  rwa [digitsVal_natDigits, digitsVal_natDigits] at h2

lemma natDigits_all_digit (n : ℕ) :
    ∀ c ∈ natDigits n, c.isDigit = true := by
  induction n using natDigits.induct with
  | case1 n h =>
    rw [natDigits.eq_def, dif_pos h]
    intro c hc
    rw [List.mem_singleton] at hc
    subst hc
    exact digitChar_isDigit_fin ⟨n, h⟩
  | case2 n h ih =>
    rw [natDigits.eq_def, dif_neg h]
    intro c hc
    rcases List.mem_append.mp hc with hm | hm
    · exact ih c hm
    · rw [List.mem_singleton] at hm
      subst hm
      exact digitChar_isDigit_fin ⟨n % 10, Nat.mod_lt _ (by omega)⟩

lemma natDigits_ne_nil (n : ℕ) : natDigits n ≠ [] := by
  rw [natDigits.eq_def]
  split <;> simp

lemma natDigits_ascii (n : ℕ) : ∀ c ∈ natDigits n, c.toNat < 128 := by
  induction n using natDigits.induct with
  | case1 n h =>
    rw [natDigits.eq_def, dif_pos h]
    intro c hc
    rw [List.mem_singleton] at hc
    subst hc
    exact digitChar_ascii n
  | case2 n h ih =>
    rw [natDigits.eq_def, dif_neg h]
    intro c hc
    rcases List.mem_append.mp hc with hm | hm
    · exact ih c hm
    · rw [List.mem_singleton] at hm
      subst hm
      exact digitChar_ascii (n % 10)

lemma dot_not_mem_natDigits (n : ℕ) : '.' ∉ natDigits n := by
  intro hmem
  have := natDigits_all_digit n '.' hmem
  exact absurd this (by decide)

lemma pad2_inj {m n : ℕ} (hm : m < 100) (hn : n < 100)
    (h : pad2 m = pad2 n) : m = n := by
  unfold pad2 at h
  injection h with h1 h2
  injection h2 with h2 _
  have e1 : m / 10 % 10 = n / 10 % 10 :=
    digitChar_inj (Nat.mod_lt _ (by omega)) (Nat.mod_lt _ (by omega)) h1
  have e2 : m % 10 = n % 10 :=
    digitChar_inj (Nat.mod_lt _ (by omega)) (Nat.mod_lt _ (by omega)) h2
  omega

lemma pad2_ascii (n : ℕ) : ∀ c ∈ pad2 n, c.toNat < 128 := by
  intro c hc
  unfold pad2 at hc
  simp only [List.mem_cons, List.mem_singleton,
    List.not_mem_nil, or_false] at hc
  rcases hc with h | h <;> (subst h; exact digitChar_ascii _)

lemma toFixed2Chars_decomp (q : ℚ) :
    ∃ ip d1 d2, toFixed2Chars q = ip ++ '.' :: [d1, d2]
      ∧ d1.isDigit = true ∧ d2.isDigit = true ∧ '.' ∉ ip := by
  refine ⟨(if round (q * 100) < 0 then ['-'] else [])
      ++ natDigits ((round (q * 100)).natAbs / 100),
    digitChar ((round (q * 100)).natAbs % 100 / 10 % 10),
    digitChar ((round (q * 100)).natAbs % 100 % 10), ?_, ?_, ?_, ?_⟩
  · simp [toFixed2Chars, pad2, List.append_assoc]
  · exact digitChar_isDigit_fin ⟨_, Nat.mod_lt _ (by omega)⟩
  · exact digitChar_isDigit_fin ⟨_, Nat.mod_lt _ (by omega)⟩
  · intro hmem
    rcases List.mem_append.mp hmem with hm | hm
    · split at hm
      · rw [List.mem_singleton] at hm
        exact absurd hm (by decide)
      · cases hm
    · exact dot_not_mem_natDigits _ hm

lemma toFixed2Chars_ascii (q : ℚ) :
    ∀ c ∈ toFixed2Chars q, c.toNat < 128 := by
  intro c hc
  unfold toFixed2Chars at hc
  rcases List.mem_append.mp hc with hm | hm
  · rcases List.mem_append.mp hm with hm2 | hm2
    · split at hm2
      · rw [List.mem_singleton] at hm2
        subst hm2
        decide
      · cases hm2
    · exact natDigits_ascii _ c hm2
  · simp only [List.mem_cons] at hm
    rcases hm with h | h
    · subst h
      decide
    · exact pad2_ascii _ c h

lemma round_cents (i : ℤ) : round (((i : ℚ) / 100) * 100) = i := by
  rw [div_mul_cancel₀]
  · exact round_intCast i
  · norm_num

lemma toFixed2Chars_inj {a b : ℚ} (ha : ∃ k : ℤ, a = k / 100)
    (hb : ∃ k : ℤ, b = k / 100)
    (h : toFixed2Chars a = toFixed2Chars b) : a = b := by
  obtain ⟨j, rfl⟩ := ha
  obtain ⟨k, rfl⟩ := hb
  suffices hjk : j = k by rw [hjk]
  simp only [toFixed2Chars, round_cents, List.append_assoc] at h
  by_cases hj : j < 0 <;> by_cases hk : k < 0
  · rw [if_pos hj, if_pos hk] at h
    simp only [List.singleton_append] at h
    injection h with _ h
    obtain ⟨hnd, hp⟩ := append_sep_inj (dot_not_mem_natDigits _)
      (dot_not_mem_natDigits _) h
    have h100 : j.natAbs / 100 = k.natAbs / 100 := natDigits_inj hnd
    have hmod : j.natAbs % 100 = k.natAbs % 100 :=
      pad2_inj (Nat.mod_lt _ (by omega)) (Nat.mod_lt _ (by omega)) hp
    omega
  · exfalso
    rw [if_pos hj, if_neg hk] at h
    simp only [List.singleton_append, List.nil_append] at h
    cases hnd : natDigits (k.natAbs / 100) with
    | nil => exact natDigits_ne_nil _ hnd
    | cons c cs =>
      rw [hnd, List.cons_append] at h
      injection h with h1 _
      have hc : c.isDigit = true := by
        refine natDigits_all_digit (k.natAbs / 100) c ?_
        rw [hnd]
        exact List.mem_cons_self c cs
      rw [← h1] at hc
      exact absurd hc (by decide)
  · exfalso
    rw [if_neg hj, if_pos hk] at h
    simp only [List.singleton_append, List.nil_append] at h
    cases hnd : natDigits (j.natAbs / 100) with
    | nil => exact natDigits_ne_nil _ hnd
    | cons c cs =>
      rw [hnd, List.cons_append] at h
      injection h with h1 _
      have hc : c.isDigit = true := by
        refine natDigits_all_digit (j.natAbs / 100) c ?_
        rw [hnd]
        exact List.mem_cons_self c cs
      rw [h1] at hc
      exact absurd hc (by decide)
  · rw [if_neg hj, if_neg hk] at h
    simp only [List.nil_append] at h
    obtain ⟨hnd, hp⟩ := append_sep_inj (dot_not_mem_natDigits _)
      (dot_not_mem_natDigits _) h
    have h100 : j.natAbs / 100 = k.natAbs / 100 := natDigits_inj hnd
    have hmod : j.natAbs % 100 = k.natAbs % 100 :=
      pad2_inj (Nat.mod_lt _ (by omega)) (Nat.mod_lt _ (by omega)) hp
    omega

/-- C5: the settlement trigger is a total, pure formatting function: for
every input it returns the `upi://pay?...` URI carrying, in order, the
encoded payee address (`pa`), the encoded display name (`pn`), the
amount rendered with exactly two fractional digits (`am`), the fixed
currency code `INR` (`cu`), and the encoded note (`tn`); the amount
segment always has a dot followed by exactly two digit characters. -/
theorem generateGooglePayUrl_format (p : GooglePayParams) :
    generateGooglePayUrl p
      = "upi://pay?pa=".data ++ (formEncode p.upiId ++ ('&' :: ("pn=".data
          ++ (formEncode p.name ++ ('&' :: ("am=".data
          ++ (formEncode (toFixed2Chars p.amount) ++ ('&' :: ("cu=INR&tn=".data
          ++ formEncode p.note)))))))))
    ∧ ∃ ip d1 d2, toFixed2Chars p.amount = ip ++ '.' :: [d1, d2]
        ∧ d1.isDigit = true ∧ d2.isDigit = true ∧ '.' ∉ ip :=
  ⟨gen_eq p, toFixed2Chars_decomp p.amount⟩

/-- Witness for `generateGooglePayUrl_format` at the sample request. -/
theorem generateGooglePayUrl_format_witness :
    generateGooglePayUrl gpSample
      = "upi://pay?pa=".data ++ (formEncode gpSample.upiId
          ++ ('&' :: ("pn=".data
          ++ (formEncode gpSample.name ++ ('&' :: ("am=".data
          ++ (formEncode (toFixed2Chars gpSample.amount)
          ++ ('&' :: ("cu=INR&tn=".data
          ++ formEncode gpSample.note)))))))))
    ∧ ∃ ip d1 d2, toFixed2Chars gpSample.amount = ip ++ '.' :: [d1, d2]
        ∧ d1.isDigit = true ∧ d2.isDigit = true ∧ '.' ∉ ip :=
  generateGooglePayUrl_format gpSample

/-- C9: settlement URI construction is deterministic (a pure function of
its four inputs, with no hidden state) and injective on
(payee, amount, name, note) for well-formed inputs: ASCII strings and
amounts expressible in whole cents. Distinct tuples give distinct URIs,
stated contrapositively: equal URIs force equal tuples. -/
theorem generateGooglePayUrl_inj (p q : GooglePayParams)
    (hpu : ∀ c ∈ p.upiId, c.toNat < 128)
    (hpn : ∀ c ∈ p.name, c.toNat < 128)
    (hpt : ∀ c ∈ p.note, c.toNat < 128)
    (hqu : ∀ c ∈ q.upiId, c.toNat < 128)
    (hqn : ∀ c ∈ q.name, c.toNat < 128)
    (hqt : ∀ c ∈ q.note, c.toNat < 128)
    (hpa : ∃ k : ℤ, p.amount = k / 100)
    (hqa : ∃ k : ℤ, q.amount = k / 100)
    (h : generateGooglePayUrl p = generateGooglePayUrl q) : p = q := by
  rw [gen_eq p, gen_eq q] at h
  have h1 := List.append_cancel_left h
  obtain ⟨hpa1, h2⟩ := append_sep_inj (amp_not_mem_formEncode _)
    (amp_not_mem_formEncode _) h1
  have hupi : p.upiId = q.upiId := formEncode_inj hpu hqu hpa1
  have h3 := List.append_cancel_left h2
  obtain ⟨hpn1, h4⟩ := append_sep_inj (amp_not_mem_formEncode _)
    (amp_not_mem_formEncode _) h3
  have hname : p.name = q.name := formEncode_inj hpn hqn hpn1
  have h5 := List.append_cancel_left h4
  obtain ⟨ham1, h6⟩ := append_sep_inj (amp_not_mem_formEncode _)
    (amp_not_mem_formEncode _) h5
  have hamt : p.amount = q.amount :=
    toFixed2Chars_inj hpa hqa
      (formEncode_inj (toFixed2Chars_ascii _) (toFixed2Chars_ascii _) ham1)
  have h7 := List.append_cancel_left h6
  have hnote : p.note = q.note := formEncode_inj hpt hqt h7
  cases p
  cases q
  simp only [GooglePayParams.mk.injEq]
  exact ⟨hupi, hamt, hname, hnote⟩

/-- Witness for `generateGooglePayUrl_inj`: the sample request is
well-formed ASCII with a whole-cents amount, and applying the theorem to
its (trivially equal) URI returns equality of the inputs. -/
theorem generateGooglePayUrl_inj_witness : gpSample = gpSample :=
  generateGooglePayUrl_inj gpSample gpSample
    (by decide) (by decide) (by decide) (by decide) (by decide) (by decide)
    ⟨123, by norm_num [gpSample]⟩ ⟨123, by norm_num [gpSample]⟩ rfl

end Splitzee
